import Mathlib

/-!
Verification of the objection-rest route generator against its source
(lib/RestApiGenerator.js).  The development shallowly embeds:

* the JavaScript value fragment used for identifiers (numbers, strings,
  undefined) together with JS loose equality and object-key coercion;
* the relation-collection PUT reconciliation of _generateRelationPutAll;
* the route table produced by generate and the exclusion check _isExcluded;
* the item PUT/PATCH handlers with their re-fetch-then-404 logic, and the
  transaction wrapper used by the other mutating handlers;
* the promise schedule of the reconciliation (batched delete, then a
  concurrent group of patches and inserts).

Definitions come first, theorems afterwards.
-/

namespace ObjectionRest

/-! ## JavaScript identifier values

Identifier properties in the generator can hold a number, a string (ids
arriving from the wire), or be absent (undefined).  We model the integer
fragment of JS numbers; identifiers in this code base are integers.
-/

inductive JSVal where
  | undef : JSVal
  | num : Int → JSVal
  | str : String → JSVal
deriving DecidableEq, Repr

/-- Decimal digit character for a digit value 0..9 (inputs of the
recursion below always satisfy this bound). -/
def digitChar : Nat → Char
  | 0 => '0' | 1 => '1' | 2 => '2' | 3 => '3' | 4 => '4'
  | 5 => '5' | 6 => '6' | 7 => '7' | 8 => '8' | _ => '9'

/-- Fuel-driven decimal rendering of a natural number, most significant
digit first.  Mirrors the JS ToString conversion on non-negative integers.
The fuel makes the definition structurally recursive so that the kernel
can evaluate it; any fuel above the argument yields the digits. -/
def natStrGo : Nat → Nat → List Char
  | 0, _ => []
  | fuel + 1, n =>
    if n < 10 then [digitChar n]
    else natStrGo fuel (n / 10) ++ [digitChar (n % 10)]

/-- Decimal rendering of an integer as a list of characters: the JS
String(i) conversion for integer values. -/
def intStrChars (i : Int) : List Char :=
  if i < 0 then '-' :: natStrGo (i.natAbs + 1) i.natAbs
  else natStrGo (i.natAbs + 1) i.natAbs

/-- JS String conversion of an integer. -/
def intStr (i : Int) : String := ⟨intStrChars i⟩

/-- Parse a list of decimal digit characters into a natural number,
accumulating left to right; any non-digit character fails the parse. -/
def parseDigits : List Char → Nat → Option Nat
  | [], acc => some acc
  | c :: cs, acc =>
    if 48 ≤ c.toNat ∧ c.toNat ≤ 57 then parseDigits cs (acc * 10 + (c.toNat - 48))
    else none

/-- JS ToNumber conversion of a string, restricted to the integer
fragment: the empty string converts to 0, an optional leading minus sign
followed by decimal digits converts to the signed value, anything else is
NaN (represented as none, which compares unequal to everything). -/
def strToNum (s : String) : Option Int :=
  match s.data with
  | [] => some 0
  | c :: cs =>
    if c = '-' then
      if cs = [] then none
      else
        match parseDigits cs 0 with
        | some n => some (-(n : Int))
        | none => none
    else
      match parseDigits (c :: cs) 0 with
      | some n => some ((n : Int))
      | none => none

/-- JS loose equality (the == operator) on the modelled value fragment:
undefined equals only undefined, same-type values compare directly, and a
number compared with a string coerces the string with ToNumber. -/
def looseEq : JSVal → JSVal → Bool
  | .undef, .undef => true
  | .num a, .num b => a == b
  | .str a, .str b => a == b
  | .num a, .str t =>
    match strToNum t with
    | some m => a == m
    | none => false
  | .str t, .num a =>
    match strToNum t with
    | some m => m == a
    | none => false
  | _, _ => false

/-- JS falsiness of the modelled values: undefined, the number 0 and the
empty string are falsy. -/
def falsy : JSVal → Bool
  | .undef => true
  | .num n => n == 0
  | .str s => s == ""

/-- JS object-property-key coercion of a value: the string under which a
value indexes a plain object (used by the keyBy map of the reconciler). -/
def keyStr : JSVal → String
  | .undef => "undefined"
  | .num n => intStr n
  | .str s => s

/-- Accumulator semantics of feeding the decimal digits of m after an
accumulated value a (specification device for the parse of a rendering). -/
def shiftIn (a : Nat) (m : Nat) : Nat :=
  if h : m < 10 then a * 10 + m
  else shiftIn a (m / 10) * 10 + m % 10
decreasing_by exact Nat.div_lt_self (by omega) (by omega)

/-! ## Related model items

A related row or submitted body item: an identifier property plus the
rest of the payload, represented by a single name column as in the test
models of the repository.  The id of an item that carries no identifier
property is undefined. -/

structure Item where
  id : JSVal
  name : String
deriving DecidableEq, Repr

/-! ## The relation-collection PUT reconciliation

Embeds lines 427-460 of lib/RestApiGenerator.js.  The keyBy map indexes
the current members under the object-key string of their identifier;
looking a submitted identifier up in it is presence of a member whose key
string equals the key string of the submitted identifier. -/

/-- Presence test in the keyBy index of the current members: does some
current member sit under object key k.  Models currentById[k] being
truthy. -/
def currentHasKey (cur : List Item) (k : String) : Bool :=
  cur.any (fun m => keyStr m.id == k)

/-- The isNew classifier of _generateRelationPutAll: a submitted model is
new when its id is falsy or the keyBy index of the current members has no
entry under its key. -/
def isNew (cur : List Item) (s : Item) : Bool :=
  falsy s.id || !(currentHasKey cur (keyStr s.id))

/-- Submitted models classified for insertion. -/
def insertModels (cur subm : List Item) : List Item :=
  subm.filter (isNew cur)

/-- Submitted models classified for update (the negation of isNew). -/
def updateModels (cur subm : List Item) : List Item :=
  subm.filter (fun s => !(isNew cur s))

/-- Current members classified for deletion: no submitted model has a
loosely (==) equal identifier. -/
def deleteModels (cur subm : List Item) : List Item :=
  cur.filter (fun m => !(subm.any (fun s => looseEq s.id m.id)))

/-- Removing the identifier property before a relation insert (the delete
of the id property on the insert payload): the id becomes undefined. -/
def stripId (s : Item) : Item := { s with id := JSVal.undef }

/-- The identifier list handed to the batched whereIn delete. -/
def deleteIds (cur subm : List Item) : List JSVal :=
  (deleteModels cur subm).map (fun m => m.id)

/-- The payloads actually passed to the relation inserts: the models
classified new, ids stripped. -/
def insertPayloads (cur subm : List Item) : List Item :=
  (insertModels cur subm).map stripId

/-! ## Database effect of one reconciliation run

The delete batch removes the rows whose id is in the deleteIds list; each
update patches, with the full submitted payload, the row whose stored id
equals the submitted id (the patched row keeps its stored id: the patch
writes the same id value back into the column); each insert appends the
stripped payload under a fresh server-assigned id (one per insert, taken
from the given list). -/

/-- The effect of the patch queries on one kept row: the update model
whose submitted id hits the row patches every column with its payload
(the id column receives the same value it already stores). -/
def patchOf (cur subm : List Item) (m : Item) : Item :=
  match (updateModels cur subm).find? (fun s => looseEq s.id m.id) with
  | some s => { s with id := m.id }
  | none => m

def reconcileStep (cur subm : List Item) (fresh : List JSVal) : List Item :=
  let kept := cur.filter (fun m => !((deleteIds cur subm).contains m.id))
  let patched := kept.map (patchOf cur subm)
  patched ++ List.zipWith (fun s fid => { stripId s with id := fid })
    (insertModels cur subm) fresh

/-! ## Promise schedule of the reconciliation

The handler chains the batched delete first and only then starts the
patch and insert queries together under Promise.all; objection query
builders begin executing when awaited.  A plan term records this shape;
its traces are every completion order the schedule permits. -/

inductive DbOp where
  | deleteWhereIn : List JSVal → DbOp
  | patchRow : Item → DbOp
  | insertRow : Item → DbOp
deriving DecidableEq, Repr

/-- The insertAndUpdateQueries array of the handler: one patch per update
model, then one relation insert (id stripped) per insert model. -/
def putAllOps (cur subm : List Item) : List DbOp :=
  (updateModels cur subm).map DbOp.patchRow ++
    (insertModels cur subm).map (fun s => DbOp.insertRow (stripId s))

inductive Plan where
  | act : DbOp → Plan
  | seq : Plan → Plan → Plan
  | par : List Plan → Plan

/-- The promise structure of the relation PUT handler: the batched delete,
then the update and insert queries as one unordered concurrent group. -/
def putAllPlan (cur subm : List Item) : Plan :=
  Plan.seq (Plan.act (DbOp.deleteWhereIn (deleteIds cur subm)))
    (Plan.par ((putAllOps cur subm).map Plan.act))

/-- All interleavings of two operation sequences (each sequence keeps its
own order; the merge order is free). -/
def interleave : List DbOp → List DbOp → List (List DbOp)
  | [], ys => [ys]
  | x :: xs, [] => [x :: xs]
  | x :: xs, y :: ys =>
    (interleave xs (y :: ys)).map (fun t => x :: t) ++
      (interleave (x :: xs) ys).map (fun t => y :: t)

/-- The possible execution orders of a plan: an action runs alone,
sequencing concatenates, a concurrent group interleaves freely. -/
def traces : Plan → List (List DbOp)
  | .act o => [[o]]
  | .seq p q => (traces p).flatMap (fun t => (traces q).map (fun u => t ++ u))
  | .par [] => [[]]
  | .par (p :: ps) =>
    (traces p).flatMap (fun t => (traces (.par ps)).flatMap (fun u => interleave t u))

/-! ## Route table generation

Embeds generate, _routeForModel, _routeForRelation and _isExcluded
(lines 105-197).  The lodash camelCase helper and the configured
pluralizer are external collaborators carried in the configuration. -/

inductive RelKind where
  | belongsToOne | hasMany | manyToMany
deriving DecidableEq, Repr

structure RelDesc where
  name : String
  kind : RelKind
deriving DecidableEq, Repr

structure ModelDesc where
  tableName : String
  rels : List RelDesc
deriving DecidableEq, Repr

/-- An exclusion matcher: an exact route string, or a regular expression
modelled by its test predicate. -/
inductive Matcher where
  | exact : String → Matcher
  | test : (String → Bool) → Matcher

structure ExcRule where
  method : String
  matcher : Matcher

structure Cfg where
  routePref : String
  plural : String → String
  camel : String → String
  excl : List ExcRule

def routeForModel (cfg : Cfg) (m : ModelDesc) : String :=
  cfg.routePref ++ cfg.plural (cfg.camel m.tableName)

def routeForRelation (cfg : Cfg) (m : ModelDesc) (r : RelDesc) : String :=
  routeForModel cfg m ++ "/:id/" ++ r.name

def matcherHits : Matcher → String → Bool
  | .exact s, route => s == route
  | .test f, route => f route

/-- The JS toLowerCase conversion on the ASCII letters (HTTP method names
are ASCII). -/
def lowerChar : Char → Char
  | 'A' => 'a' | 'B' => 'b' | 'C' => 'c' | 'D' => 'd' | 'E' => 'e'
  | 'F' => 'f' | 'G' => 'g' | 'H' => 'h' | 'I' => 'i' | 'J' => 'j'
  | 'K' => 'k' | 'L' => 'l' | 'M' => 'm' | 'N' => 'n' | 'O' => 'o'
  | 'P' => 'p' | 'Q' => 'q' | 'R' => 'r' | 'S' => 's' | 'T' => 't'
  | 'U' => 'u' | 'V' => 'v' | 'W' => 'w' | 'X' => 'x' | 'Y' => 'y'
  | 'Z' => 'z' | c => c

def lowerStr (s : String) : String := ⟨s.data.map lowerChar⟩

/-- The _isExcluded check: some registered rule has the same method under
lowercasing and a matcher hitting the route. -/
def isExcluded (excl : List ExcRule) (method route : String) : Bool :=
  excl.any (fun e =>
    if lowerStr e.method == lowerStr method then matcherHits e.matcher route
    else false)

structure Endpoint where
  method : String
  route : String
deriving DecidableEq, Repr

/-- The relation endpoints generated for one relation, in source order:
POST, GET, DELETE, then PUT unless the relation is belongs-to-one, then
the relate POST for many-to-many relations; each guarded by the exclusion
check. -/
def relEndpointsFor (cfg : Cfg) (m : ModelDesc) (r : RelDesc) : List Endpoint :=
  let rr := routeForRelation cfg m r
  (if !(isExcluded cfg.excl "POST" rr) then [⟨"POST", rr⟩] else []) ++
  (if !(isExcluded cfg.excl "GET" rr) then [⟨"GET", rr⟩] else []) ++
  (if !(isExcluded cfg.excl "DELETE" rr) then [⟨"DELETE", rr⟩] else []) ++
  (if r.kind ≠ RelKind.belongsToOne then
    (if !(isExcluded cfg.excl "PUT" rr) then [⟨"PUT", rr⟩] else [])
   else []) ++
  (if r.kind = RelKind.manyToMany then
    (if !(isExcluded cfg.excl "POST" (rr ++ "/:relatedId"))
     then [⟨"POST", rr ++ "/:relatedId"⟩] else [])
   else [])

/-- The endpoints generated for one model, in source order: the eight
collection and item endpoints, then the endpoints of every relation. -/
def genFor (cfg : Cfg) (m : ModelDesc) : List Endpoint :=
  let route := routeForModel cfg m
  (if !(isExcluded cfg.excl "POST" route) then [⟨"POST", route⟩] else []) ++
  (if !(isExcluded cfg.excl "GET" route) then [⟨"GET", route⟩] else []) ++
  (if !(isExcluded cfg.excl "PATCH" route) then [⟨"PATCH", route⟩] else []) ++
  (if !(isExcluded cfg.excl "DELETE" route) then [⟨"DELETE", route⟩] else []) ++
  (if !(isExcluded cfg.excl "GET" (route ++ "/:id")) then [⟨"GET", route ++ "/:id"⟩] else []) ++
  (if !(isExcluded cfg.excl "PUT" (route ++ "/:id")) then [⟨"PUT", route ++ "/:id"⟩] else []) ++
  (if !(isExcluded cfg.excl "PATCH" (route ++ "/:id")) then [⟨"PATCH", route ++ "/:id"⟩] else []) ++
  (if !(isExcluded cfg.excl "DELETE" (route ++ "/:id")) then [⟨"DELETE", route ++ "/:id"⟩] else []) ++
  m.rels.flatMap (relEndpointsFor cfg m)

def generate (cfg : Cfg) (models : List ModelDesc) : List Endpoint :=
  models.flatMap (genFor cfg)

/-- Specification-side relation endpoint list, written from the words of
the claim: exactly POST, GET and DELETE on the relation path, plus PUT
unless belongs-to-one, plus the relate POST for many-to-many. -/
def canonicalRel (cfg : Cfg) (m : ModelDesc) (r : RelDesc) : List Endpoint :=
  let rr := routeForRelation cfg m r
  [⟨"POST", rr⟩, ⟨"GET", rr⟩, ⟨"DELETE", rr⟩] ++
  (if r.kind ≠ RelKind.belongsToOne then [⟨"PUT", rr⟩] else []) ++
  (if r.kind = RelKind.manyToMany then [⟨"POST", rr ++ "/:relatedId"⟩] else [])

/-- Specification-side endpoint list for one model, written from the
words of the claim: the eight collection and item endpoints in fixed
order, then the per-relation endpoints. -/
def canonicalFor (cfg : Cfg) (m : ModelDesc) : List Endpoint :=
  let route := routeForModel cfg m
  [⟨"POST", route⟩, ⟨"GET", route⟩, ⟨"PATCH", route⟩, ⟨"DELETE", route⟩,
   ⟨"GET", route ++ "/:id"⟩, ⟨"PUT", route ++ "/:id"⟩,
   ⟨"PATCH", route ++ "/:id"⟩, ⟨"DELETE", route ++ "/:id"⟩] ++
  m.rels.flatMap (canonicalRel cfg m)

/-! ## The fluent builder registration order

addModel appends a model, exclude pushes a rule; generate later reads
both accumulated lists.  A step list models an interleaved sequence of
such calls. -/

inductive BuildStep where
  | addModel : ModelDesc → BuildStep
  | excludeRule : ExcRule → BuildStep

def appliedModels (steps : List BuildStep) : List ModelDesc :=
  steps.filterMap (fun st =>
    match st with
    | .addModel m => some m
    | .excludeRule _ => none)

def appliedExcludes (steps : List BuildStep) : List ExcRule :=
  steps.filterMap (fun st =>
    match st with
    | .addModel _ => none
    | .excludeRule e => some e)

/-! ## Item PUT and PATCH handlers, transactions, relation handlers

The handlers are modelled as state transformers on a plain row list (the
table of the model) or on a relation state; a handler returns the new
state together with the fulfilled payload or the rejection error.  The
PUT and PATCH item handlers run an update and then re-fetch by the routed
id; they are the only mutating handlers not wrapped in a transaction. -/

structure JErr where
  statusCode : Nat
deriving DecidableEq, Repr

/-- A request body for an item update: columns present in the body are
written, absent columns keep their stored value. -/
structure Body where
  id : Option JSVal
  name : Option String
deriving DecidableEq, Repr

structure ItemReq where
  pid : JSVal
  eager : Option String
  body : Body
deriving DecidableEq, Repr

def applyBody (r : Item) (b : Body) : Item :=
  { id := b.id.getD r.id, name := b.name.getD r.name }

/-- The update statement of the PUT and PATCH handlers: set the body
columns on every row whose id column equals the routed id. -/
def updateWhereId (db : List Item) (pid : JSVal) (b : Body) : List Item :=
  db.map (fun r => if looseEq r.id pid then applyBody r b else r)

/-- The query the handler builds for the re-fetch after the update: the
eager allow list of the find helper, the eager expression taken verbatim
from the request query, and a where clause on the routed id. -/
structure FetchQ where
  allowed : List String
  eagerArg : Option String
  whereId : JSVal
deriving DecidableEq, Repr

def refetchQ (allowed : List String) (req : ItemReq) : FetchQ :=
  { allowed := allowed, eagerArg := req.eager, whereId := req.pid }

/-- Running a fetch query: first row whose id column matches the where
clause. -/
def runFetchQ (db : List Item) (q : FetchQ) : Option Item :=
  db.find? (fun r => looseEq r.id q.whereId)

/-- The PUT item handler (_generatePut): update by routed id, re-fetch by
the same id, reject with a 404 error when the re-fetch finds nothing.
No transaction wrapper. -/
def putHandler (allowed : List String) (db : List Item) (req : ItemReq) :
    List Item × Except JErr Item :=
  let db2 := updateWhereId db req.pid req.body
  match runFetchQ db2 (refetchQ allowed req) with
  | none => (db2, Except.error { statusCode := 404 })
  | some r => (db2, Except.ok r)

/-- The PATCH item handler (_generatePatch): identical state behaviour to
PUT in this model (update and patch differ only in validation, which is
the persistence collaborator responsibility). -/
def patchHandler (allowed : List String) (db : List Item) (req : ItemReq) :
    List Item × Except JErr Item :=
  let db2 := updateWhereId db req.pid req.body
  match runFetchQ db2 (refetchQ allowed req) with
  | none => (db2, Except.error { statusCode := 404 })
  | some r => (db2, Except.ok r)

/-- The objection.transaction wrapper: run the body on the state; on
fulfilment keep the new state, on rejection roll the state back. -/
def transact {σ α : Type} (st : σ) (f : σ → σ × Except JErr α) :
    σ × Except JErr α :=
  match f st with
  | (st2, Except.ok a) => (st2, Except.ok a)
  | (_, Except.error e) => (st, Except.error e)

/-- The POST collection handler (_generatePost): transaction-wrapped
insert of the body under a server-assigned id, then re-fetch of the
inserted row. -/
def postHandler (db : List Item) (b : Item) (fid : JSVal) :
    List Item × Except JErr Item :=
  transact db (fun db0 =>
    let row := { b with id := fid }
    (db0 ++ [row], Except.ok row))

/-- The DELETE item handler (_generateDelete): transaction-wrapped delete
by routed id, fulfilled with an empty object payload, no 404. -/
def deleteHandler (db : List Item) (pid : JSVal) :
    List Item × Except JErr Unit :=
  transact db (fun db0 =>
    (db0.filter (fun r => !(looseEq r.id pid)), Except.ok ()))

/-- Relation state: the owner table and the related rows, each related
row paired with the id of its owner. -/
structure RelDb where
  owners : List Item
  related : List (JSVal × Item)
deriving DecidableEq, Repr

/-- The relation DELETE handler (_generateRelationDeleteAll):
transaction-wrapped; 404 when the owner row is absent, otherwise delete
every related row of the owner. -/
def relationDeleteAllHandler (db : RelDb) (pid : JSVal) :
    RelDb × Except JErr Unit :=
  transact db (fun d =>
    match d.owners.find? (fun m => looseEq m.id pid) with
    | none => (d, Except.error { statusCode := 404 })
    | some m =>
      ({ d with related := d.related.filter (fun p => !(looseEq p.1 m.id)) },
        Except.ok ()))

/-- Payload of the relation GET handler: a single object (possibly
absent) for belongs-to-one relations, a row list otherwise. -/
inductive RelPayload where
  | single : Option Item → RelPayload
  | many : List Item → RelPayload
deriving DecidableEq, Repr

/-- The relation GET handler (_generateRelationGetAll): 404 when the
owner row is absent; otherwise the related rows are fetched through the
find-query collaborator, modelled by a row predicate; for belongs-to-one
relations the handler takes first() of the query, otherwise the whole
list. -/
def relationGetAllHandler (kind : RelKind) (flt : Item → Bool) (db : RelDb)
    (pid : JSVal) : Except JErr RelPayload :=
  match db.owners.find? (fun m => looseEq m.id pid) with
  | none => Except.error { statusCode := 404 }
  | some m =>
    let rows := ((db.related.filter (fun p => looseEq p.1 m.id)).map
      (fun p => p.2)).filter flt
    if kind = RelKind.belongsToOne then Except.ok (RelPayload.single rows.head?)
    else Except.ok (RelPayload.many rows)

/-! # Theorems -/

/-! ## Decimal round trip -/

theorem shiftIn_lt {a m : Nat} (h : m < 10) : shiftIn a m = a * 10 + m := by
  unfold shiftIn
  simp [h]

theorem shiftIn_ge {a m : Nat} (h : ¬ m < 10) :
    shiftIn a m = shiftIn a (m / 10) * 10 + m % 10 := by
  conv_lhs => unfold shiftIn
  simp [h]

theorem digitChar_spec {d : Nat} (h : d < 10) :
    (digitChar d).toNat = 48 + d := by
  interval_cases d <;> rfl

theorem parseDigits_digitChar {d : Nat} (h : d < 10) (cs : List Char) (acc : Nat) :
    parseDigits (digitChar d :: cs) acc = parseDigits cs (acc * 10 + d) := by
  have hd := digitChar_spec h
  simp [parseDigits, hd]
  omega

theorem parseDigits_natStrGo : ∀ (n fuel : Nat), n < fuel →
    ∀ (extra : List Char) (acc : Nat),
    parseDigits (natStrGo fuel n ++ extra) acc = parseDigits extra (shiftIn acc n) := by
  intro n
  induction n using Nat.strong_induction_on with
  | _ n ih =>
    intro fuel h extra acc
    match fuel, h with
    | f + 1, h =>
      by_cases hn : n < 10
      · simp only [natStrGo, hn, if_true, List.cons_append, List.nil_append]
        rw [parseDigits_digitChar hn, shiftIn_lt hn]
      · have hdiv : n / 10 < n := Nat.div_lt_self (by omega) (by omega)
        simp only [natStrGo, hn, if_false, List.append_assoc, List.singleton_append]
        rw [ih (n / 10) hdiv f (by omega) (digitChar (n % 10) :: extra) acc,
          parseDigits_digitChar (Nat.mod_lt _ (by omega)), shiftIn_ge hn]

theorem shiftIn_zero : ∀ (n : Nat), shiftIn 0 n = n := by
  intro n
  induction n using Nat.strong_induction_on with
  | _ n ih =>
    by_cases hn : n < 10
    · rw [shiftIn_lt hn]; omega
    · rw [shiftIn_ge hn, ih (n / 10) (Nat.div_lt_self (by omega) (by omega))]
      omega

theorem parseDigits_natStr (n : Nat) :
    parseDigits (natStrGo (n + 1) n) 0 = some n := by
  have h := parseDigits_natStrGo n (n + 1) (by omega) [] 0
  simpa [parseDigits, shiftIn_zero] using h

/-- Every character produced by the renderer is a decimal digit. -/
theorem natStrGo_digits : ∀ (n fuel : Nat), n < fuel →
    ∀ c ∈ natStrGo fuel n, ∃ d, d < 10 ∧ c = digitChar d := by
  intro n
  induction n using Nat.strong_induction_on with
  | _ n ih =>
    intro fuel h c hc
    match fuel, h with
    | f + 1, h =>
      by_cases hn : n < 10
      · simp only [natStrGo, hn, if_true, List.mem_singleton] at hc
        exact ⟨n, hn, hc⟩
      · have hdiv : n / 10 < n := Nat.div_lt_self (by omega) (by omega)
        simp only [natStrGo, hn, if_false, List.mem_append, List.mem_singleton] at hc
        rcases hc with hc | hc
        · exact ih (n / 10) hdiv f (by omega) c hc
        · exact ⟨n % 10, Nat.mod_lt _ (by omega), hc⟩

theorem natStrGo_ne_nil (n fuel : Nat) (h : n < fuel) :
    natStrGo fuel n ≠ [] := by
  match fuel, h with
  | f + 1, _ =>
    by_cases hn : n < 10 <;> simp [natStrGo, hn]

theorem digitChar_ne_minus {d : Nat} (h : d < 10) : digitChar d ≠ '-' := by
  interval_cases d <;> decide

/-- The JS number-to-string-to-number round trip on integers. -/
theorem strToNum_intStr (i : Int) : strToNum (intStr i) = some i := by
  by_cases hi : i < 0
  · have habs : 0 < i.natAbs := by
      have : i ≠ 0 := by omega
      exact Int.natAbs_pos.mpr this
    rw [intStr, strToNum]
    have hne := natStrGo_ne_nil i.natAbs (i.natAbs + 1) (by omega)
    simp [intStrChars, if_pos hi, hne, parseDigits_natStr, abs_of_neg hi]
  · rw [intStr, strToNum]
    simp only [intStrChars, if_neg hi]
    rcases hmem : natStrGo (i.natAbs + 1) i.natAbs with _ | ⟨c, cs⟩
    · exact absurd hmem (natStrGo_ne_nil i.natAbs (i.natAbs + 1) (by omega))
    · have hc : ∃ d, d < 10 ∧ c = digitChar d :=
        natStrGo_digits i.natAbs (i.natAbs + 1) (by omega) c
          (by rw [hmem]; exact List.mem_cons_self _ _)
      rcases hc with ⟨d, hd, rfl⟩
      simp [if_neg (digitChar_ne_minus hd), ← hmem, parseDigits_natStr,
        Int.natAbs_of_nonneg (show (0 : Int) ≤ i by omega)]

/-- The decimal renderer is injective: distinct integers have distinct JS
string representations, hence occupy distinct object keys. -/
theorem intStr_injective {a b : Int} (h : intStr a = intStr b) : a = b := by
  have ha := strToNum_intStr a
  have hb := strToNum_intStr b
  rw [h, hb] at ha
  exact Option.some.inj ha |>.symm

/-- Key coercion agreeing on two defined values implies JS loose equality:
if two non-undefined identifier values collide as object keys then they
also compare equal under the == operator. -/
theorem keyStr_looseEq {a b : JSVal} (ha : a ≠ .undef) (hb : b ≠ .undef)
    (h : keyStr a = keyStr b) : looseEq a b = true := by
  cases a with
  | undef => exact absurd rfl ha
  | num n =>
    cases b with
    | undef => exact absurd rfl hb
    | num m =>
      simp only [keyStr] at h
      have := intStr_injective h
      simp [looseEq, this]
    | str t =>
      simp only [keyStr] at h
      simp [looseEq, ← h, strToNum_intStr]
  | str s =>
    cases b with
    | undef => exact absurd rfl hb
    | num m =>
      simp only [keyStr] at h
      simp [looseEq, h, strToNum_intStr]
    | str t =>
      simp only [keyStr] at h
      simp [looseEq, h]

/-! ## Route table -/

theorem filter_flatMap_eq {α β : Type} (l : List α) (f : α → List β) (p : β → Bool) :
    (l.flatMap f).filter p = l.flatMap (fun a => (f a).filter p) := by
  induction l with
  | nil => rfl
  | cons a l ih => simp [List.flatMap_cons, List.filter_append, ih]

theorem isExcluded_nil (method route : String) :
    isExcluded [] method route = false := rfl

theorem ite_singleton_append {α : Type} (c : Prop) [Decidable c] (x : α) (l : List α) :
    (if c then [x] else []) ++ l = if c then x :: l else l := by
  split_ifs <;> simp

theorem ite_append_distrib {α : Type} (c : Prop) [Decidable c] (a b l : List α) :
    (if c then a else b) ++ l = if c then a ++ l else b ++ l := by
  split_ifs <;> rfl

theorem flatMap_congr_fun {α β : Type} (l : List α) (f g : α → List β)
    (h : ∀ a ∈ l, f a = g a) : l.flatMap f = l.flatMap g := by
  induction l with
  | nil => rfl
  | cons a l ih =>
    simp only [List.flatMap_cons, h a (List.mem_cons_self a l)]
    rw [ih (fun b hb => h b (List.mem_cons_of_mem a hb))]

theorem relEndpointsFor_eq_filter (cfg : Cfg) (m : ModelDesc) (r : RelDesc) :
    relEndpointsFor cfg m r = (canonicalRel cfg m r).filter
      (fun e => !(isExcluded cfg.excl e.method e.route)) := by
  cases hk : r.kind <;>
    simp [relEndpointsFor, canonicalRel, hk, List.filter_append,
      List.filter_cons, ite_singleton_append, ite_append_distrib, List.append_assoc]

theorem genFor_eq_filter (cfg : Cfg) (m : ModelDesc) :
    genFor cfg m = (canonicalFor cfg m).filter
      (fun e => !(isExcluded cfg.excl e.method e.route)) := by
  have hrel : m.rels.flatMap (relEndpointsFor cfg m)
      = m.rels.flatMap (fun r => (canonicalRel cfg m r).filter
        (fun e => !(isExcluded cfg.excl e.method e.route))) :=
    flatMap_congr_fun _ _ _ (fun r _ => relEndpointsFor_eq_filter cfg m r)
  simp only [genFor, canonicalFor, hrel, List.filter_append, List.filter_cons,
    List.filter_nil, filter_flatMap_eq, List.append_assoc, ite_singleton_append,
    ite_append_distrib, List.cons_append, List.nil_append, List.singleton_append]

/-- C1: for a model with an empty exclusion list, generate registers
exactly the eight collection and item endpoints in the fixed order POST,
GET, PATCH, DELETE on the collection then GET, PUT, PATCH, DELETE on the
item path, and for each relation exactly POST, GET, DELETE on the
relation path, plus PUT unless the relation is belongs-to-one, plus the
relate POST exactly for many-to-many relations; nothing else. -/
theorem generate_full_endpoint_table (cfg : Cfg) (m : ModelDesc)
    (h : cfg.excl = []) : genFor cfg m = canonicalFor cfg m := by
  rw [genFor_eq_filter]
  have hall : ∀ e ∈ canonicalFor cfg m,
      (!(isExcluded cfg.excl e.method e.route)) = true := by
    intro e _
    simp [h, isExcluded_nil]
  exact List.filter_eq_self.mpr hall

/-- C1 witness: the full table for a concrete model with a relation of
each kind under the default configuration. -/
theorem generate_full_endpoint_table_witness :
    genFor ⟨"/", fun w => w ++ "s", fun w => w, []⟩
        ⟨"person", [⟨"parent", RelKind.belongsToOne⟩, ⟨"pets", RelKind.hasMany⟩,
          ⟨"movies", RelKind.manyToMany⟩]⟩
      = canonicalFor ⟨"/", fun w => w ++ "s", fun w => w, []⟩
        ⟨"person", [⟨"parent", RelKind.belongsToOne⟩, ⟨"pets", RelKind.hasMany⟩,
          ⟨"movies", RelKind.manyToMany⟩]⟩ ∧
    canonicalFor ⟨"/", fun w => w ++ "s", fun w => w, []⟩
        ⟨"person", [⟨"parent", RelKind.belongsToOne⟩, ⟨"pets", RelKind.hasMany⟩,
          ⟨"movies", RelKind.manyToMany⟩]⟩
      = [⟨"POST", "/persons"⟩, ⟨"GET", "/persons"⟩, ⟨"PATCH", "/persons"⟩,
         ⟨"DELETE", "/persons"⟩, ⟨"GET", "/persons/:id"⟩, ⟨"PUT", "/persons/:id"⟩,
         ⟨"PATCH", "/persons/:id"⟩, ⟨"DELETE", "/persons/:id"⟩,
         ⟨"POST", "/persons/:id/parent"⟩, ⟨"GET", "/persons/:id/parent"⟩,
         ⟨"DELETE", "/persons/:id/parent"⟩,
         ⟨"POST", "/persons/:id/pets"⟩, ⟨"GET", "/persons/:id/pets"⟩,
         ⟨"DELETE", "/persons/:id/pets"⟩, ⟨"PUT", "/persons/:id/pets"⟩,
         ⟨"POST", "/persons/:id/movies"⟩, ⟨"GET", "/persons/:id/movies"⟩,
         ⟨"DELETE", "/persons/:id/movies"⟩, ⟨"PUT", "/persons/:id/movies"⟩,
         ⟨"POST", "/persons/:id/movies/:relatedId"⟩] :=
  ⟨generate_full_endpoint_table _ _ rfl, by decide⟩

/-- C5: a generated route is suppressed exactly when some registered
exclusion rule has the same method under case-insensitive comparison and
a matcher hitting the route (exact string, or pattern test); and the
suppression outcome does not depend on the order in which exclusion rules
were registered relative to each other and to addModel calls. -/
theorem exclusion_any_rule_order_free :
    (∀ (cfg : Cfg) (m : ModelDesc) (e : Endpoint), e ∈ canonicalFor cfg m →
      (e ∉ genFor cfg m ↔ ∃ rule ∈ cfg.excl,
        lowerStr rule.method = lowerStr e.method ∧
          matcherHits rule.matcher e.route = true)) ∧
    (∀ steps1 steps2 : List BuildStep, List.Perm steps1 steps2 →
      ∀ method route, isExcluded (appliedExcludes steps1) method route
        = isExcluded (appliedExcludes steps2) method route) ∧
    (∀ (m : ModelDesc) (steps : List BuildStep),
      appliedExcludes (BuildStep.addModel m :: steps) = appliedExcludes steps) := by
  have hchar : ∀ (excl : List ExcRule) (method route : String),
      isExcluded excl method route = true ↔
        ∃ rule ∈ excl, lowerStr rule.method = lowerStr method ∧
          matcherHits rule.matcher route = true := by
    intro excl method route
    rw [isExcluded, List.any_eq_true]
    constructor
    · rintro ⟨rule, hmem, hr⟩
      by_cases hm : lowerStr rule.method == lowerStr method
      · exact ⟨rule, hmem, by simpa using hm, by simpa [hm] using hr⟩
      · simp [hm] at hr
    · rintro ⟨rule, hmem, hm, hr⟩
      exact ⟨rule, hmem, by simp [hm, hr]⟩
  refine ⟨?_, ?_, ?_⟩
  · intro cfg m e hmem
    rw [genFor_eq_filter]
    rw [← hchar cfg.excl e.method e.route]
    constructor
    · intro hnot
      by_contra hx
      exact hnot (List.mem_filter.mpr ⟨hmem, by simpa using hx⟩)
    · intro hexc hin
      have := (List.mem_filter.mp hin).2
      simp [hexc] at this
  · intro steps1 steps2 hperm method route
    have hpe : List.Perm (appliedExcludes steps1) (appliedExcludes steps2) :=
      hperm.filterMap _
    have h1 := hchar (appliedExcludes steps1) method route
    have h2 := hchar (appliedExcludes steps2) method route
    have hiff : isExcluded (appliedExcludes steps1) method route = true ↔
        isExcluded (appliedExcludes steps2) method route = true := by
      rw [h1, h2]
      constructor
      · rintro ⟨rule, hmem, hp⟩
        exact ⟨rule, hpe.mem_iff.mp hmem, hp⟩
      · rintro ⟨rule, hmem, hp⟩
        exact ⟨rule, hpe.mem_iff.mpr hmem, hp⟩
    cases h1' : isExcluded (appliedExcludes steps1) method route <;>
      cases h2' : isExcluded (appliedExcludes steps2) method route <;>
        simp_all
  · intro m steps
    rfl

/-- C5 witness: a rule excluding PUT on the item route suppresses it for
a concrete model, independently of step order. -/
theorem exclusion_any_rule_order_free_witness :
    (⟨"PUT", "/persons/:id"⟩ : Endpoint) ∉
      genFor ⟨"/", fun w => w ++ "s", fun w => w,
        [⟨"put", Matcher.exact "/persons/:id"⟩]⟩ ⟨"person", []⟩ :=
  (exclusion_any_rule_order_free.1 _ _ _ (by decide)).mpr
    ⟨⟨"put", Matcher.exact "/persons/:id"⟩, List.mem_singleton.mpr rfl,
      by decide, by decide⟩

/-! ## Reconciliation -/

theorem patchOf_id (cur subm : List Item) (m : Item) :
    (patchOf cur subm m).id = m.id := by
  unfold patchOf
  cases h : (updateModels cur subm).find? (fun s => looseEq s.id m.id) <;> simp

theorem contains_eq_true_iff_mem (l : List JSVal) (a : JSVal) :
    l.contains a = true ↔ a ∈ l := List.elem_iff

theorem not_contains_iff (l : List JSVal) (a : JSVal) :
    (!(l.contains a)) = true ↔ l.contains a = false := by
  cases l.contains a <;> simp

theorem mem_deleteModels (cur subm : List Item) (m : Item) :
    m ∈ deleteModels cur subm ↔
      m ∈ cur ∧ ∀ s ∈ subm, looseEq s.id m.id = false := by
  rw [deleteModels, List.mem_filter]
  constructor
  · rintro ⟨hm, hb⟩
    refine ⟨hm, fun s hs => ?_⟩
    have hany : subm.any (fun s => looseEq s.id m.id) = false := by
      simpa using hb
    exact Bool.not_eq_true _ |>.mp (List.any_eq_false.mp hany s hs)
  · rintro ⟨hm, hall⟩
    refine ⟨hm, ?_⟩
    have hany : subm.any (fun s => looseEq s.id m.id) = false :=
      List.any_eq_false.mpr (fun s hs => by simp [hall s hs])
    simp [hany]

theorem not_deleted_of_loose_match (cur subm : List Item) (m : Item)
    (hm : m ∈ cur) (hc : ((deleteIds cur subm).contains m.id) = false) :
    ∃ s ∈ subm, looseEq s.id m.id = true := by
  by_contra hnone
  push_neg at hnone
  have hdel : m ∈ deleteModels cur subm :=
    (mem_deleteModels cur subm m).mpr
      ⟨hm, fun s hs => Bool.not_eq_true _ |>.mp (hnone s hs)⟩
  have hmem : m.id ∈ deleteIds cur subm :=
    List.mem_map.mpr ⟨m, hdel, rfl⟩
  have hc2 : (deleteIds cur subm).contains m.id = true :=
    (contains_eq_true_iff_mem _ _).mpr hmem
  rw [hc2] at hc
  exact Bool.noConfusion hc

theorem id_not_in_deleteIds (cur subm : List Item) (m : Item)
    (hle : ∃ s ∈ subm, looseEq s.id m.id = true) :
    ((deleteIds cur subm).contains m.id) = false := by
  rcases hle with ⟨s, hs, hl⟩
  cases hc : (deleteIds cur subm).contains m.id
  · rfl
  · exfalso
    have hmem : m.id ∈ deleteIds cur subm := (contains_eq_true_iff_mem _ _).mp hc
    rcases List.mem_map.mp hmem with ⟨m2, hm2, hid⟩
    have hfalse := ((mem_deleteModels cur subm m2).mp hm2).2 s hs
    rw [hid, hl] at hfalse
    exact Bool.noConfusion hfalse

/-- C2 counterexample: a submitted item that carries the identifier 0,
loosely equal to the identifier of a current member, is nevertheless
classified insert, not update — refuting the claimed pure
coercing-equality classification. -/
theorem reconcile_classification_cex :
    looseEq (JSVal.num 0) (JSVal.num 0) = true ∧
    insertModels [⟨JSVal.num 0, "A"⟩] [⟨JSVal.num 0, "B"⟩]
      = [⟨JSVal.num 0, "B"⟩] ∧
    updateModels [⟨JSVal.num 0, "A"⟩] [⟨JSVal.num 0, "B"⟩] = [] := by
  decide

/-- C2 (amended): the insert and update sets partition the submitted set
with no item in both; an item is classified insert exactly when its
identifier is falsy (absent, 0 or empty) or its object-key string indexes
no current member; the delete set is exactly the current members whose
identifier matches no submitted item under coercing equality; and the
scenario of the specification computes as stated. -/
theorem reconcile_classification :
    (∀ cur subm : List Item,
      List.Perm (insertModels cur subm ++ updateModels cur subm) subm ∧
      (∀ s, s ∈ insertModels cur subm → s ∉ updateModels cur subm) ∧
      (∀ s, s ∈ insertModels cur subm ↔
        s ∈ subm ∧ (falsy s.id = true ∨
          ¬ ∃ m ∈ cur, keyStr m.id = keyStr s.id)) ∧
      (∀ m, m ∈ deleteModels cur subm ↔
        m ∈ cur ∧ ¬ ∃ s ∈ subm, looseEq s.id m.id = true)) ∧
    deleteModels [⟨JSVal.num 34, "A"⟩, ⟨JSVal.num 37, "B"⟩]
        [⟨JSVal.num 34, "A2"⟩, ⟨JSVal.num 99999, "C"⟩, ⟨JSVal.undef, "D"⟩]
      = [⟨JSVal.num 37, "B"⟩] ∧
    updateModels [⟨JSVal.num 34, "A"⟩, ⟨JSVal.num 37, "B"⟩]
        [⟨JSVal.num 34, "A2"⟩, ⟨JSVal.num 99999, "C"⟩, ⟨JSVal.undef, "D"⟩]
      = [⟨JSVal.num 34, "A2"⟩] ∧
    insertPayloads [⟨JSVal.num 34, "A"⟩, ⟨JSVal.num 37, "B"⟩]
        [⟨JSVal.num 34, "A2"⟩, ⟨JSVal.num 99999, "C"⟩, ⟨JSVal.undef, "D"⟩]
      = [⟨JSVal.undef, "C"⟩, ⟨JSVal.undef, "D"⟩] := by
  refine ⟨fun cur subm => ⟨?_, ?_, ?_, ?_⟩, by decide, by decide, by decide⟩
  · simpa [insertModels, updateModels] using
      List.filter_append_perm (isNew cur) subm
  · intro s hi hu
    have h1 := (List.mem_filter.mp hi).2
    have h2 := (List.mem_filter.mp hu).2
    simp [h1] at h2
  · intro s
    rw [insertModels, List.mem_filter]
    constructor
    · rintro ⟨hs, hn⟩
      refine ⟨hs, ?_⟩
      rw [isNew, Bool.or_eq_true] at hn
      rcases hn with hf | hk
      · exact Or.inl hf
      · refine Or.inr ?_
        rintro ⟨m, hm, hkey⟩
        have : currentHasKey cur (keyStr s.id) = true :=
          List.any_eq_true.mpr ⟨m, hm, by simp [hkey]⟩
        simp [this] at hk
    · rintro ⟨hs, hf | hk⟩
      · exact ⟨hs, by simp [isNew, hf]⟩
      · refine ⟨hs, ?_⟩
        have : currentHasKey cur (keyStr s.id) = false := by
          cases hc : currentHasKey cur (keyStr s.id)
          · rfl
          · exfalso
            rcases List.any_eq_true.mp hc with ⟨m, hm, hb⟩
            exact hk ⟨m, hm, by simpa using hb⟩
        simp [isNew, this]
  · intro m
    rw [mem_deleteModels]
    constructor
    · rintro ⟨hm, hall⟩
      refine ⟨hm, ?_⟩
      rintro ⟨s, hs, hl⟩
      rw [hall s hs] at hl
      exact Bool.noConfusion hl
    · rintro ⟨hm, hnone⟩
      refine ⟨hm, fun s hs => ?_⟩
      cases hl : looseEq s.id m.id
      · rfl
      · exact absurd ⟨s, hs, hl⟩ hnone

/-- C2 witness: in the scenario of the specification, the item with the
unmatched identifier 99999 is classified insert and therefore not
update. -/
theorem reconcile_classification_witness :
    (⟨JSVal.num 99999, "C"⟩ : Item) ∉
      updateModels [⟨JSVal.num 34, "A"⟩, ⟨JSVal.num 37, "B"⟩]
        [⟨JSVal.num 34, "A2"⟩, ⟨JSVal.num 99999, "C"⟩, ⟨JSVal.undef, "D"⟩] :=
  (reconcile_classification.1 _ _).2.1 _ (by decide)

/-- C9: a submitted item with a falsy identifier such as 0 is classified
insert even when a current member carries a loosely equal identifier, its
identifier is stripped before insertion, and the matching current member
is excluded from the delete set; hence, as the concrete run shows, the
relation afterwards contains both the old row and a freshly inserted
copy. -/
theorem falsy_id_duplicate_row :
    (∀ (cur subm : List Item) (s : Item), s ∈ subm → falsy s.id = true →
      s ∈ insertModels cur subm ∧ (stripId s).id = JSVal.undef ∧
      ∀ m ∈ cur, looseEq s.id m.id = true → m ∉ deleteModels cur subm) ∧
    reconcileStep [⟨JSVal.num 0, "X"⟩] [⟨JSVal.num 0, "Y"⟩] [JSVal.num 5]
      = [⟨JSVal.num 0, "X"⟩, ⟨JSVal.num 5, "Y"⟩] := by
  constructor
  · intro cur subm s hs hf
    refine ⟨List.mem_filter.mpr ⟨hs, by simp [isNew, hf]⟩, rfl, ?_⟩
    intro m hm hle hmem
    have hall := ((mem_deleteModels cur subm m).mp hmem).2 s hs
    rw [hle] at hall
    exact Bool.noConfusion hall
  · decide

/-- C9 witness: with current member id 0 and submitted id 0, the member
is not deleted while the submission is inserted. -/
theorem falsy_id_duplicate_row_witness :
    (⟨JSVal.num 0, "X"⟩ : Item) ∉
      deleteModels [⟨JSVal.num 0, "X"⟩] [⟨JSVal.num 0, "Y"⟩] :=
  (falsy_id_duplicate_row.1 [⟨JSVal.num 0, "X"⟩] [⟨JSVal.num 0, "Y"⟩]
      ⟨JSVal.num 0, "Y"⟩ (by decide) (by decide)).2.2
    ⟨JSVal.num 0, "X"⟩ (by decide) (by decide)

/-- C6 counterexample: re-running the reconciliation with the same
submitted set on the state the first run produced does not yield empty
insert and delete sets: a submitted item without an identifier is
classified insert on every run, and its previously inserted copy (holding
a fresh server id matching nothing submitted) lands in the delete set. -/
theorem reconcile_idempotence_cex :
    ¬ (insertModels (reconcileStep [] [⟨JSVal.undef, "D"⟩] [JSVal.num 1])
          [⟨JSVal.undef, "D"⟩] = [] ∧
       deleteModels (reconcileStep [] [⟨JSVal.undef, "D"⟩] [JSVal.num 1])
          [⟨JSVal.undef, "D"⟩] = []) := by
  decide

/-- C6 (amended): when the first reconciliation run classified no
submitted item as insert (every submitted item matched a current member)
and the current members carry defined identifiers, re-running the
reconciliation with the same submitted set on the resulting state yields
an empty insert set and an empty delete set. -/
theorem reconcile_idempotent_after_convergence (cur subm : List Item)
    (fresh : List JSVal)
    (hundef : ∀ m ∈ cur, m.id ≠ JSVal.undef)
    (hins : insertModels cur subm = []) :
    insertModels (reconcileStep cur subm fresh) subm = [] ∧
    deleteModels (reconcileStep cur subm fresh) subm = [] := by
  have hsub : ∀ s ∈ subm, isNew cur s = false := by
    intro s hs
    have hn := List.filter_eq_nil_iff.mp hins s hs
    cases h : isNew cur s
    · rfl
    · exact absurd h hn
  have hstep : reconcileStep cur subm fresh =
      (cur.filter (fun m => !((deleteIds cur subm).contains m.id))).map
        (patchOf cur subm) := by
    rw [reconcileStep, hins]
    simp
  have hmem_step : ∀ x, x ∈ reconcileStep cur subm fresh ↔
      ∃ m, (m ∈ cur ∧ ((deleteIds cur subm).contains m.id) = false) ∧
        patchOf cur subm m = x := by
    intro x
    rw [hstep, List.mem_map]
    constructor
    · rintro ⟨m, hm, rfl⟩
      have h2 := List.mem_filter.mp hm
      exact ⟨m, ⟨h2.1, (not_contains_iff _ _).mp h2.2⟩, rfl⟩
    · rintro ⟨m, ⟨hm, hc⟩, rfl⟩
      exact ⟨m, List.mem_filter.mpr ⟨hm, (not_contains_iff _ _).mpr hc⟩, rfl⟩
  constructor
  · rw [insertModels, List.filter_eq_nil_iff]
    intro s hs hnew
    have hold := hsub s hs
    rw [isNew] at hold
    have hff : falsy s.id = false := by
      cases h : falsy s.id
      · rfl
      · rw [h] at hold
        exact Bool.noConfusion hold
    have hkey : currentHasKey cur (keyStr s.id) = true := by
      cases h : currentHasKey cur (keyStr s.id)
      · rw [hff, h] at hold
        exact Bool.noConfusion hold
      · rfl
    rcases List.any_eq_true.mp hkey with ⟨m, hm, hb⟩
    have hkeq : keyStr m.id = keyStr s.id := by simpa using hb
    have hsid : s.id ≠ JSVal.undef := by
      intro h
      rw [h] at hff
      exact Bool.noConfusion hff
    have hloose : looseEq s.id m.id = true :=
      keyStr_looseEq hsid (hundef m hm) hkeq.symm
    have hc : ((deleteIds cur subm).contains m.id) = false :=
      id_not_in_deleteIds cur subm m ⟨s, hs, hloose⟩
    have hx : patchOf cur subm m ∈ reconcileStep cur subm fresh :=
      (hmem_step _).mpr ⟨m, ⟨hm, hc⟩, rfl⟩
    have hkeyStep : currentHasKey (reconcileStep cur subm fresh) (keyStr s.id) = true :=
      List.any_eq_true.mpr ⟨patchOf cur subm m, hx, by
        simp [patchOf_id, hkeq]⟩
    simp [isNew, hff, hkeyStep] at hnew
  · rw [deleteModels, List.filter_eq_nil_iff]
    intro x hx hdel
    rcases (hmem_step x).mp hx with ⟨m, ⟨hm, hc⟩, rfl⟩
    rcases not_deleted_of_loose_match cur subm m hm hc with ⟨s, hs, hl⟩
    have hany : subm.any (fun s2 => looseEq s2.id (patchOf cur subm m).id) = true :=
      List.any_eq_true.mpr ⟨s, hs, by rw [patchOf_id]; exact hl⟩
    simp [hany] at hdel

/-- C6 witness: a converged state (every submitted item matches) re-runs
with empty insert and delete sets. -/
theorem reconcile_idempotent_after_convergence_witness :
    insertModels
        (reconcileStep [⟨JSVal.num 34, "A"⟩] [⟨JSVal.num 34, "A2"⟩] [])
        [⟨JSVal.num 34, "A2"⟩] = [] ∧
    deleteModels
        (reconcileStep [⟨JSVal.num 34, "A"⟩] [⟨JSVal.num 34, "A2"⟩] [])
        [⟨JSVal.num 34, "A2"⟩] = [] :=
  reconcile_idempotent_after_convergence _ _ _ (by decide) (by decide)

/-- C7: every payload handed to a relation insert by the reconciliation
has its client-supplied identifier removed: both in the insert payload
list and in every insert operation of the scheduled query group, the id
is undefined, so inserted row identifiers are server-assigned. -/
theorem insert_ids_server_assigned :
    ∀ cur subm : List Item,
      (∀ p ∈ insertPayloads cur subm, p.id = JSVal.undef) ∧
      (∀ it : Item, DbOp.insertRow it ∈ putAllOps cur subm →
        it.id = JSVal.undef) := by
  intro cur subm
  constructor
  · intro p hp
    rcases List.mem_map.mp hp with ⟨s, _, rfl⟩
    rfl
  · intro it hit
    rw [putAllOps, List.mem_append] at hit
    rcases hit with h | h
    · rcases List.mem_map.mp h with ⟨s, _, heq⟩
      exact DbOp.noConfusion heq
    · rcases List.mem_map.mp h with ⟨s, _, heq⟩
      have : stripId s = it := DbOp.insertRow.inj heq
      rw [← this]
      rfl

/-- C7 witness: the insert payload for the id-less scenario item has an
undefined id. -/
theorem insert_ids_server_assigned_witness :
    (⟨JSVal.undef, "D"⟩ : Item).id = JSVal.undef :=
  (insert_ids_server_assigned [⟨JSVal.num 34, "A"⟩, ⟨JSVal.num 37, "B"⟩]
      [⟨JSVal.num 34, "A2"⟩, ⟨JSVal.num 99999, "C"⟩, ⟨JSVal.undef, "D"⟩]).1
    ⟨JSVal.undef, "D"⟩ (by decide)

/-! ## Promise schedule -/

theorem traces_act (o : DbOp) : traces (Plan.act o) = [[o]] := by
  simp [traces]

theorem traces_seq (p q : Plan) :
    traces (Plan.seq p q) =
      (traces p).flatMap (fun t => (traces q).map (fun u => t ++ u)) := by
  conv_lhs => rw [traces]

theorem traces_par_nil : traces (Plan.par []) = [[]] := by
  conv_lhs => rw [traces]

theorem traces_par_cons (p : Plan) (ps : List Plan) :
    traces (Plan.par (p :: ps)) =
      (traces p).flatMap (fun t => (traces (Plan.par ps)).flatMap
        (fun u => interleave t u)) := by
  conv_lhs => rw [traces]

theorem mem_interleave_single (o : DbOp) : ∀ (u v : List DbOp),
    v ∈ interleave [o] u ↔ ∃ u1 u2, u = u1 ++ u2 ∧ v = u1 ++ o :: u2 := by
  intro u
  induction u with
  | nil =>
    intro v
    constructor
    · intro hv
      simp only [interleave, List.mem_singleton] at hv
      exact ⟨[], [], rfl, by simp [hv]⟩
    · rintro ⟨u1, u2, h1, rfl⟩
      rcases List.append_eq_nil.mp h1.symm with ⟨rfl, rfl⟩
      simp [interleave]
  | cons y ys ih =>
    intro v
    constructor
    · intro hv
      simp only [interleave, List.mem_append, List.mem_map,
        List.mem_singleton] at hv
      rcases hv with ⟨t2, ht2, rfl⟩ | ⟨t2, ht2, rfl⟩
      · subst ht2
        exact ⟨[], y :: ys, rfl, rfl⟩
      · rcases (ih t2).mp ht2 with ⟨u1, u2, rfl, rfl⟩
        exact ⟨y :: u1, u2, rfl, rfl⟩
    · rintro ⟨u1, u2, h1, rfl⟩
      cases u1 with
      | nil =>
        simp only [List.nil_append] at h1
        subst h1
        simp [interleave]
      | cons z u1t =>
        rw [List.cons_append] at h1
        injection h1 with hz ht
        subst hz
        subst ht
        simp only [interleave, List.mem_append, List.mem_map]
        right
        exact ⟨u1t ++ o :: u2, (ih _).mpr ⟨u1t, u2, rfl, rfl⟩, rfl⟩

theorem traces_par_acts : ∀ (os : List DbOp) (t : List DbOp),
    t ∈ traces (Plan.par (os.map Plan.act)) ↔ List.Perm t os := by
  intro os
  induction os with
  | nil =>
    intro t
    rw [List.map_nil, traces_par_nil]
    simp [List.perm_nil]
  | cons o os ih =>
    intro t
    rw [List.map_cons, traces_par_cons, traces_act]
    simp only [List.flatMap_cons, List.flatMap_nil, List.append_nil,
      List.mem_flatMap]
    constructor
    · rintro ⟨u, hu, hv⟩
      rcases (mem_interleave_single o u t).mp hv with ⟨u1, u2, rfl, rfl⟩
      have hperm : List.Perm (u1 ++ u2) os := (ih _).mp hu
      exact List.perm_middle.trans (hperm.cons o)
    · intro hperm
      have ho : o ∈ t := hperm.mem_iff.mpr (List.mem_cons_self o os)
      rcases List.append_of_mem ho with ⟨t1, t2, rfl⟩
      have h2 : List.Perm (t1 ++ t2) os :=
        (List.perm_middle.symm.trans hperm).cons_inv
      exact ⟨t1 ++ t2, (ih _).mpr h2,
        (mem_interleave_single o _ _).mpr ⟨t1, t2, rfl, rfl⟩⟩

/-- C3: the traces of the relation PUT schedule are exactly the sequences
that start with the single batched delete and continue with any
permutation of the patch and insert operations: the delete completes
before any insert or update begins, and the concurrent group imposes no
ordering among its members. -/
theorem relation_put_schedule (cur subm : List Item) (t : List DbOp) :
    t ∈ traces (putAllPlan cur subm) ↔
      ∃ rest, t = DbOp.deleteWhereIn (deleteIds cur subm) :: rest ∧
        List.Perm rest (putAllOps cur subm) := by
  rw [putAllPlan, traces_seq, traces_act]
  simp only [List.flatMap_cons, List.flatMap_nil, List.append_nil,
    List.mem_map]
  constructor
  · rintro ⟨u, hu, rfl⟩
    exact ⟨u, rfl, (traces_par_acts _ _).mp hu⟩
  · rintro ⟨rest, rfl, hperm⟩
    exact ⟨rest, (traces_par_acts _ _).mpr hperm, rfl⟩

/-- C3 witness: a trace of the scenario schedule in which an insert runs
before a patch, after the batched delete. -/
theorem relation_put_schedule_witness :
    [DbOp.deleteWhereIn [JSVal.num 37],
     DbOp.insertRow ⟨JSVal.undef, "C"⟩,
     DbOp.patchRow ⟨JSVal.num 34, "A2"⟩,
     DbOp.insertRow ⟨JSVal.undef, "D"⟩] ∈
      traces (putAllPlan [⟨JSVal.num 34, "A"⟩, ⟨JSVal.num 37, "B"⟩]
        [⟨JSVal.num 34, "A2"⟩, ⟨JSVal.num 99999, "C"⟩, ⟨JSVal.undef, "D"⟩]) :=
  (relation_put_schedule _ _ _).mpr
    ⟨[DbOp.insertRow ⟨JSVal.undef, "C"⟩, DbOp.patchRow ⟨JSVal.num 34, "A2"⟩,
      DbOp.insertRow ⟨JSVal.undef, "D"⟩], by decide, by decide⟩

/-! ## Item handlers and transactions -/

theorem transact_rollback {σ α : Type} (st : σ) (f : σ → σ × Except JErr α)
    (e : JErr) (h : (transact st f).2 = Except.error e) :
    (transact st f).1 = st := by
  rcases hf : f st with ⟨st2, r⟩
  rw [transact, hf] at h
  rw [transact, hf]
  cases r with
  | ok a => exact Except.noConfusion h
  | error e2 => rfl

/-- C4: after the update, the PUT and PATCH item handlers re-fetch by the
routed primary key with the eager expression of the request, and when
that re-fetch returns no row the handler rejects with a 404 error — as
the concrete run shows, even when the update statement matched a row
(here the update rewrote the id, so the re-fetch by the old id is
empty). -/
theorem put_patch_refetch_404 :
    (∀ (a : List String) (req : ItemReq),
      (refetchQ a req).whereId = req.pid ∧
      (refetchQ a req).eagerArg = req.eager ∧
      (refetchQ a req).allowed = a) ∧
    (∀ (a : List String) (db : List Item) (req : ItemReq),
      runFetchQ (updateWhereId db req.pid req.body) (refetchQ a req) = none →
        putHandler a db req =
          (updateWhereId db req.pid req.body,
            Except.error { statusCode := 404 })) ∧
    (∀ (a : List String) (db : List Item) (req : ItemReq),
      runFetchQ (updateWhereId db req.pid req.body) (refetchQ a req) = none →
        patchHandler a db req =
          (updateWhereId db req.pid req.body,
            Except.error { statusCode := 404 })) ∧
    ([⟨JSVal.num 1, "A"⟩] : List Item).any
        (fun r => looseEq r.id (JSVal.num 1)) = true ∧
    (putHandler [] [⟨JSVal.num 1, "A"⟩]
        ⟨JSVal.num 1, none, ⟨some (JSVal.num 2), some "B"⟩⟩).2
      = Except.error { statusCode := 404 } := by
  refine ⟨fun a req => ⟨rfl, rfl, rfl⟩, ?_, ?_, by decide, rfl⟩
  · intro a db req h
    rw [putHandler, h]
  · intro a db req h
    rw [patchHandler, h]

/-- C4 witness: the handler at a concrete input where the update matched
but the re-fetch misses. -/
theorem put_patch_refetch_404_witness :
    putHandler [] [⟨JSVal.num 1, "A"⟩]
        ⟨JSVal.num 1, none, ⟨some (JSVal.num 2), some "B"⟩⟩
      = ([⟨JSVal.num 2, "B"⟩], Except.error { statusCode := 404 }) :=
  (put_patch_refetch_404.2.1 [] [⟨JSVal.num 1, "A"⟩]
      ⟨JSVal.num 1, none, ⟨some (JSVal.num 2), some "B"⟩⟩ rfl).trans rfl

/-- C8: for a belongs-to-one relation the GET relation handler fulfils
with a single object payload (possibly absent) whenever the owner row
exists; in particular an existing owner with no related row yields a
fulfilled empty payload, not a 404 rejection. -/
theorem relation_get_belongsToOne :
    (∀ (flt : Item → Bool) (db : RelDb) (pid : JSVal),
      (∃ m, db.owners.find? (fun o => looseEq o.id pid) = some m) →
        ∃ o, relationGetAllHandler RelKind.belongsToOne flt db pid
          = Except.ok (RelPayload.single o)) ∧
    relationGetAllHandler RelKind.belongsToOne (fun _ => true)
        ⟨[⟨JSVal.num 1, "O"⟩], []⟩ (JSVal.num 1)
      = Except.ok (RelPayload.single none) := by
  constructor
  · rintro flt db pid ⟨m, hm⟩
    rw [relationGetAllHandler, hm]
    exact ⟨_, if_pos rfl⟩
  · rfl

/-- C8 witness: a concrete owner with one related row fulfils with a
single-object payload. -/
theorem relation_get_belongsToOne_witness :
    ∃ o, relationGetAllHandler RelKind.belongsToOne (fun _ => false)
        ⟨[⟨JSVal.num 7, "P"⟩], [(JSVal.num 7, ⟨JSVal.num 9, "R"⟩)]⟩
        (JSVal.num 7)
      = Except.ok (RelPayload.single o) :=
  relation_get_belongsToOne.1 _ _ _ ⟨⟨JSVal.num 7, "P"⟩, by decide⟩

/-- C10: the PUT and PATCH item handlers run without a transaction
wrapper: as the concrete runs show, they can reject with a 404 while
leaving the row list changed by the already-applied update; whereas the
transaction wrapper used by the create, item delete and relation handlers
restores the incoming state on every rejection. -/
theorem put_patch_not_transactional :
    ((putHandler [] [⟨JSVal.num 3, "A"⟩]
        ⟨JSVal.num 3, none, ⟨some (JSVal.num 4), none⟩⟩).2
      = Except.error { statusCode := 404 } ∧
     (putHandler [] [⟨JSVal.num 3, "A"⟩]
        ⟨JSVal.num 3, none, ⟨some (JSVal.num 4), none⟩⟩).1
      ≠ [⟨JSVal.num 3, "A"⟩]) ∧
    ((patchHandler [] [⟨JSVal.num 3, "A"⟩]
        ⟨JSVal.num 3, none, ⟨some (JSVal.num 4), none⟩⟩).2
      = Except.error { statusCode := 404 } ∧
     (patchHandler [] [⟨JSVal.num 3, "A"⟩]
        ⟨JSVal.num 3, none, ⟨some (JSVal.num 4), none⟩⟩).1
      ≠ [⟨JSVal.num 3, "A"⟩]) ∧
    (∀ (σ α : Type) (st : σ) (f : σ → σ × Except JErr α) (e : JErr),
      (transact st f).2 = Except.error e → (transact st f).1 = st) ∧
    (∀ (db : RelDb) (pid : JSVal) (e : JErr),
      (relationDeleteAllHandler db pid).2 = Except.error e →
        (relationDeleteAllHandler db pid).1 = db) ∧
    (∀ (db : List Item) (b : Item) (fid : JSVal) (e : JErr),
      (postHandler db b fid).2 = Except.error e →
        (postHandler db b fid).1 = db) ∧
    (∀ (db : List Item) (pid : JSVal) (e : JErr),
      (deleteHandler db pid).2 = Except.error e →
        (deleteHandler db pid).1 = db) := by
  refine ⟨⟨rfl, by decide⟩, ⟨rfl, by decide⟩,
    fun σ α st f e h => transact_rollback st f e h, ?_, ?_, ?_⟩
  · intro db pid e h
    exact transact_rollback db _ e h
  · intro db b fid e h
    exact transact_rollback db _ e h
  · intro db pid e h
    exact transact_rollback db _ e h

/-- C10 witness: the relation delete handler rejects with 404 for a
missing owner and leaves the relation state untouched. -/
theorem put_patch_not_transactional_witness :
    (relationDeleteAllHandler
        ⟨[], [(JSVal.num 1, ⟨JSVal.num 2, "R"⟩)]⟩ (JSVal.num 1)).1
      = ⟨[], [(JSVal.num 1, ⟨JSVal.num 2, "R"⟩)]⟩ :=
  put_patch_not_transactional.2.2.2.1
    ⟨[], [(JSVal.num 1, ⟨JSVal.num 2, "R"⟩)]⟩ (JSVal.num 1)
    { statusCode := 404 } rfl

end ObjectionRest
